import Mathlib

/-!
Verification of `src/bedrock_integration.py` (AWS automated access review,
Bedrock integration module).

The Python module is a linear pipeline: `prepare_prompt` summarises a list of
finding dictionaries into a prompt string, `invoke_claude_model` performs one
remote call through a client handle, `extract_narrative_claude` concatenates
the text parts of the response and strips whitespace, and
`generate_fallback_narrative` is a fixed string used whenever the pipeline
fails.  `get_ai_analysis` orchestrates the pipeline and absorbs failures.

Shallow embedding conventions:
* A Python dictionary value is `PyVal` (either `None` or a string); a field of
  a finding record is `Option PyVal`, where `Option.none` means the key is
  absent from the dictionary, and `some PyVal.none` means the key is present
  and bound to `None`.  This keeps Python's distinction between
  `d.get(k)` returning `None` for a missing key and for an explicit `None`.
* `dict.get(k)` is `Option.getD` with the appropriate default.
* The category dictionary (`findings_by_category`) is an insertion-ordered
  association list, matching Python 3 dict semantics.
* Python's stable `sorted(..., key=...)` is `List.mergeSort`, which is proved
  stable in core.
* `str.strip()` is `pyStrip`, dropping the ASCII whitespace characters from
  both ends of the character list.
* The remote client handle is a function from the request content to
  `Except String ModelResponse`; an `Except.error` models the call raising.
  `prepare_prompt` and `extract_narrative_claude` are total on the embedded
  (well-typed) data, so the only failure source in the model is the client.
-/

/-- A Python value stored in a finding/response dictionary: `None` or a
string. -/
inductive PyVal where
  | none
  | str (s : String)
deriving DecidableEq

/-- Python `str(v)` as used by f-string interpolation: `None` renders as
`"None"`. -/
def pyStr : PyVal → String
  | PyVal.none => "None"
  | PyVal.str s => s

/-- A security finding record.  Each field is a dictionary key that may be
absent (`Option.none`) or present with a value (possibly `some PyVal.none`,
i.e. bound to Python `None`). -/
structure Finding where
  severity : Option PyVal := Option.none
  category : Option PyVal := Option.none
  description : Option PyVal := Option.none
  resource_type : Option PyVal := Option.none
  resource_id : Option PyVal := Option.none
deriving DecidableEq

/-- `finding.get("severity")` — missing key yields Python `None`. -/
def Finding.getSeverity (f : Finding) : PyVal := f.severity.getD PyVal.none

/-- `finding.get("category", "Other")` — the `"Other"` default applies only
when the key is absent. -/
def Finding.getCategory (f : Finding) : PyVal := f.category.getD (PyVal.str "Other")

/-- The `severity_counts` dictionary of `prepare_prompt`: five fixed keys. -/
structure SeverityCounts where
  critical : Nat
  high : Nat
  medium : Nat
  low : Nat
  informational : Nat
deriving DecidableEq

/-- All five counters initialized to zero. -/
def initialCounts : SeverityCounts := ⟨0, 0, 0, 0, 0⟩

/-- One iteration of the counting loop:
`if finding.get("severity") in severity_counts: severity_counts[...] += 1`.
Membership in the dictionary is the test against the five fixed keys. -/
def countSeverity (c : SeverityCounts) (f : Finding) : SeverityCounts :=
  if f.getSeverity = PyVal.str "Critical" then { c with critical := c.critical + 1 }
  else if f.getSeverity = PyVal.str "High" then { c with high := c.high + 1 }
  else if f.getSeverity = PyVal.str "Medium" then { c with medium := c.medium + 1 }
  else if f.getSeverity = PyVal.str "Low" then { c with low := c.low + 1 }
  else if f.getSeverity = PyVal.str "Informational" then { c with informational := c.informational + 1 }
  else c

/-- The severity-counting loop of `prepare_prompt` (lines 142-145). -/
def severity_counts (findings : List Finding) : SeverityCounts :=
  findings.foldl countSeverity initialCounts

/-- Sum of the five severity counters. -/
def SeverityCounts.total (c : SeverityCounts) : Nat :=
  c.critical + c.high + c.medium + c.low + c.informational

/-- Whether `finding.get("severity")` is one of the five recognized labels
(the membership test `finding.get("severity") in severity_counts`). -/
def recognizedSeverity (f : Finding) : Bool :=
  if f.getSeverity = PyVal.str "Critical" then true
  else if f.getSeverity = PyVal.str "High" then true
  else if f.getSeverity = PyVal.str "Medium" then true
  else if f.getSeverity = PyVal.str "Low" then true
  else if f.getSeverity = PyVal.str "Informational" then true
  else false

/-- One iteration of the grouping loop of `prepare_prompt` (lines 150-159):
append the finding to its category's list, creating the entry on first
occurrence.  The association list models Python's insertion-ordered dict. -/
def addToCategory (acc : List (PyVal × List Finding)) (f : Finding) :
    List (PyVal × List Finding) :=
  if acc.any (fun p => p.1 = f.getCategory) then
    acc.map (fun p => if p.1 = f.getCategory then (p.1, p.2 ++ [f]) else p)
  else acc ++ [(f.getCategory, [f])]

/-- The `findings_by_category` dictionary of `prepare_prompt`. -/
def findings_by_category (findings : List Finding) : List (PyVal × List Finding) :=
  findings.foldl addToCategory []

/-- The `severity_order` dictionary (lines 171-177), as a lookup. -/
def severity_order (v : PyVal) : Option Nat :=
  if v = PyVal.str "Critical" then some 0
  else if v = PyVal.str "High" then some 1
  else if v = PyVal.str "Medium" then some 2
  else if v = PyVal.str "Low" then some 3
  else if v = PyVal.str "Informational" then some 4
  else Option.none

/-- The sort key `severity_order.get(x.get("severity", "Low"), 999)`
(line 182). -/
def sortKey (f : Finding) : Nat :=
  (severity_order (f.severity.getD (PyVal.str "Low"))).getD 999

/-- `sorted(category_findings, key=...)` — Python's sort is stable, modelled
by `List.mergeSort`. -/
def sortBySeverity (g : List Finding) : List Finding :=
  g.mergeSort (fun a b => sortKey a ≤ sortKey b)

/-- One rendered finding line (lines 188-191). -/
def findingLine (f : Finding) : String :=
  "  - " ++ pyStr (f.severity.getD PyVal.none) ++ ": " ++
    pyStr (f.description.getD PyVal.none) ++ " (" ++
    pyStr (f.resource_type.getD PyVal.none) ++ ": " ++
    pyStr (f.resource_id.getD PyVal.none) ++ ")"

/-- The lines contributed by one category (lines 167-198): header, the first
five findings sorted by severity, and a remainder line when more than five. -/
def categoryLines (c : PyVal) (g : List Finding) : List String :=
  ("\nCategory: " ++ pyStr c) ::
    (((sortBySeverity g).take 5).map findingLine ++
      (if 5 < g.length then
        ["  - ... and " ++ toString (g.length - 5) ++ " more " ++ pyStr c ++ " findings"]
       else []))

/-- The `findings_summary` list built across all categories. -/
def findings_summary (findings : List Finding) : List String :=
  (findings_by_category findings).foldl (fun acc p => acc ++ categoryLines p.1 p.2) []

/-- The full prompt string of `prepare_prompt` (lines 203-216);
`chr(10).join` is `String.intercalate "\n"`. -/
def prepare_prompt (findings : List Finding) : String :=
  "<findings>\n# AWS Security Findings Summary\n\nTotal findings: " ++
    toString findings.length ++
    "\n- Critical: " ++ toString (severity_counts findings).critical ++
    "\n- High: " ++ toString (severity_counts findings).high ++
    "\n- Medium: " ++ toString (severity_counts findings).medium ++
    "\n- Low: " ++ toString (severity_counts findings).low ++
    "\n- Informational: " ++ toString (severity_counts findings).informational ++
    "\n\n## Findings by Category:\n" ++
    String.intercalate "\n" (findings_summary findings) ++
    "\n</findings>\n"

/-- Whitespace characters removed by Python `str.strip()` (ASCII range). -/
def pyIsSpace (c : Char) : Bool :=
  c = ' ' ∨ c = '\t' ∨ c = '\n' ∨ c = '\r' ∨ c = '\x0b' ∨ c = '\x0c'

/-- Python `s.strip()`: drop whitespace from both ends. -/
def pyStrip (s : String) : String :=
  String.mk (((s.data.dropWhile pyIsSpace).reverse.dropWhile pyIsSpace).reverse)

/-- One part of the Claude response `content` list: a dictionary with
optional `type` and `text` keys.  The `text` value is a string when present
(a non-string value would raise in the Python concatenation, outside this
well-typed model). -/
structure ContentPart where
  type : Option PyVal := Option.none
  text : Option String := Option.none
deriving DecidableEq

/-- The parsed Bedrock response: the `content` key may be absent. -/
structure ModelResponse where
  content : Option (List ContentPart) := Option.none
deriving DecidableEq

/-- `extract_narrative_claude` (lines 291-301): concatenate the `text` of
every part whose `type` is `"text"`, then strip. -/
def extract_narrative_claude (response : ModelResponse) : String :=
  let content_parts := response.content.getD []
  let narrative := content_parts.foldl
    (fun acc part =>
      if part.type.getD PyVal.none = PyVal.str "text" then acc ++ part.text.getD "" else acc)
    ""
  pyStrip narrative

/-- `generate_fallback_narrative` (lines 326-343): the fixed fallback
report. -/
def generate_fallback_narrative : String :=
  "# AWS Access Review Report\n\n" ++
  "## Executive Summary\n\n" ++
  "Due to technical limitations, a detailed AI analysis could not be generated. " ++
  "Please refer to the CSV report for a complete list of findings.\n\n" ++
  "## Key Recommendations\n\n" ++
  "1. **High Priority:** Review all findings marked as Critical or High priority first\n" ++
  "2. **Medium Priority:** Address Medium priority findings as part of regular maintenance\n" ++
  "3. **Low Priority:** Consider Low priority findings for long-term security improvements\n" ++
  "4. **Ongoing:** Maintain regular security reviews and monitoring\n\n" ++
  "## Next Steps\n\n" ++
  "For detailed findings and specific recommendations, please consult the attached CSV" ++
  " report. Consider scheduling a follow-up security review once the highest priority items" ++
  " have been addressed.\n\n" ++
  "---\n" ++
  "This report was generated by the AWS Access Review Tool. For questions or assistance, " ++
  "please contact your security team."

/-- The fixed model identifier (line 232). -/
def model_id : String := "anthropic.claude-3-haiku-20240307-v1:0"

/-- The user-message content of the request body (lines 239-250): fixed
instructional preamble around the prompt. -/
def requestContent (prompt : String) : String :=
  "You are a cybersecurity expert analyzing AWS security findings. " ++
  "Generate a concise, professional security report based on the following findings:\n\n" ++
  prompt ++ "\n\n" ++
  "Your report should include:\n" ++
  "1. An executive summary of the security posture\n" ++
  "2. Analysis of the most critical findings\n" ++
  "3. Clear, actionable recommendations\n" ++
  "4. Compliance implications\n\n" ++
  "Format the report with clear headings and concise language suitable for both " ++
  "technical and non-technical stakeholders."

/-- The externally supplied Bedrock client handle: maps the request content to
a parsed response, or fails (`Except.error` models the call raising). -/
structure BedrockClient where
  invoke_model : String → Except String ModelResponse

/-- `invoke_claude_model` (lines 221-284): one synchronous call; any failure
is re-raised to the caller (the `except` block only logs and re-raises). -/
def invoke_claude_model (bedrock : BedrockClient) (prompt : String) :
    Except String ModelResponse :=
  bedrock.invoke_model (requestContent prompt)

/-- `get_ai_analysis` (lines 28-79): run the pipeline; on any failure return
the fallback narrative.  In the embedding the only failing step is the remote
call, the pure steps being total. -/
def get_ai_analysis (bedrock : BedrockClient) (findings : List Finding) : String :=
  match invoke_claude_model bedrock (prepare_prompt findings) with
  | Except.ok response => extract_narrative_claude response
  | Except.error _ => generate_fallback_narrative

/-- Modelled from the spec: the category labels in first-occurrence order,
used to compare the rendered category order with the spec's description. -/
def firstOccurrences (l : List PyVal) : List PyVal :=
  l.foldl (fun ks c => if ks.any (fun k => k = c) then ks else ks ++ [c]) []

/-- A client whose remote call always fails (used to exercise the fallback
path of the orchestrator). -/
def errClient : BedrockClient := ⟨fun _ => Except.error "network timeout"⟩

/-- A concrete well-formed response. -/
def okResp : ModelResponse :=
  { content := some [{ type := some (PyVal.str "text"), text := some "All clear." }] }

/-- A client whose remote call always succeeds with `okResp`. -/
def okClient : BedrockClient := ⟨fun _ => Except.ok okResp⟩

/-- A finding with a recognized severity and a category. -/
def sampleCritical : Finding :=
  { severity := some (PyVal.str "Critical"), category := some (PyVal.str "IAM"),
    description := some (PyVal.str "Root account without MFA"),
    resource_type := some (PyVal.str "IAM"), resource_id := some (PyVal.str "root") }

/-- A finding with an unrecognized severity value. -/
def sampleWeird : Finding :=
  { severity := some (PyVal.str "Severe"), category := some (PyVal.str "IAM") }

/-- A finding whose `category` key is present but bound to Python `None`. -/
def sampleNullCategory : Finding :=
  { severity := some (PyVal.str "Low"), category := some PyVal.none }

/-- A finding with no `severity` key. -/
def sampleNoSeverity : Finding := { category := some (PyVal.str "S3") }

/-! ## Helper lemmas -/

-- Dropping with the same predicate twice drops nothing new.
theorem dropWhile_dropWhile {α} (p : α → Bool) :
    ∀ l : List α, (l.dropWhile p).dropWhile p = l.dropWhile p := by
  intro l
  induction l with
  | nil => rfl
  | cons a l ih =>
    by_cases h : p a
    · simp [List.dropWhile_cons, h, ih]
    · simp [List.dropWhile_cons, h]

-- The head of a nonempty `dropWhile` result fails the predicate.
theorem dropWhile_head_false {α} (p : α → Bool) :
    ∀ (l : List α) (x : α) (rest : List α), l.dropWhile p = x :: rest → p x = false := by
  intro l
  induction l with
  | nil => intro x rest h; simp [List.dropWhile] at h
  | cons a l ih =>
    intro x rest h
    by_cases ha : p a
    · rw [List.dropWhile_cons_of_pos ha] at h
      exact ih x rest h
    · rw [List.dropWhile_cons_of_neg ha] at h
      cases h
      simpa using ha

-- `dropWhile` returns a suffix of its input.
theorem exists_dropWhile_decomp {α} (p : α → Bool) :
    ∀ l : List α, ∃ t, l = t ++ l.dropWhile p := by
  intro l
  induction l with
  | nil => exact ⟨[], rfl⟩
  | cons a l ih =>
    by_cases h : p a
    · obtain ⟨t, ht⟩ := ih
      exact ⟨a :: t, by rw [List.dropWhile_cons_of_pos h]; simpa using ht⟩
    · exact ⟨[], by rw [List.dropWhile_cons_of_neg h]; rfl⟩

-- Python `strip` is idempotent.
theorem pyStrip_idem (s : String) : pyStrip (pyStrip s) = pyStrip s := by
  apply String.ext
  show ((((((s.data.dropWhile pyIsSpace).reverse.dropWhile pyIsSpace).reverse).dropWhile
      pyIsSpace).reverse).dropWhile pyIsSpace).reverse =
    ((s.data.dropWhile pyIsSpace).reverse.dropWhile pyIsSpace).reverse
  set p := pyIsSpace with hp
  set A := s.data.dropWhile p with hA
  set B := A.reverse.dropWhile p with hB
  have claim1 : B.reverse.dropWhile p = B.reverse := by
    cases hu : B.reverse with
    | nil => simp
    | cons x u =>
      obtain ⟨t, ht⟩ := exists_dropWhile_decomp p A.reverse
      rw [← hB] at ht
      have hArev : A = B.reverse ++ t.reverse := by
        have := congrArg List.reverse ht
        simpa using this
      rw [hu] at hArev
      have hx : p x = false := by
        apply dropWhile_head_false p s.data x (u ++ t.reverse)
        rw [← hA, hArev]; simp
      rw [List.dropWhile_cons_of_neg (by simp [hx])]
  rw [claim1]
  rw [List.reverse_reverse, dropWhile_dropWhile]

-- A left fold of string appends factors through its accumulator.
theorem foldl_strappend (l : List String) :
    ∀ acc : String, l.foldl (fun a b => a ++ b) acc = acc ++ l.foldl (fun a b => a ++ b) "" := by
  induction l with
  | nil => intro acc; simp
  | cons a l ih =>
    intro acc
    simp only [List.foldl_cons]
    rw [ih (acc ++ a), ih ("" ++ a), String.empty_append, String.append_assoc]

theorem join_cons (a : String) (l : List String) :
    String.join (a :: l) = a ++ String.join l := by
  simp only [String.join, List.foldl_cons, String.empty_append]
  rw [foldl_strappend]

-- The extraction fold equals the join of the text of the text-typed parts.
theorem extract_foldl (parts : List ContentPart) :
    ∀ acc : String,
      parts.foldl
        (fun acc part =>
          if part.type.getD PyVal.none = PyVal.str "text" then acc ++ part.text.getD "" else acc) acc
      = acc ++ String.join
          ((parts.filter (fun p => p.type.getD PyVal.none = PyVal.str "text")).map
            (fun p => p.text.getD "")) := by
  induction parts with
  | nil => intro acc; simp [String.join]
  | cons q parts ih =>
    intro acc
    by_cases h : q.type.getD PyVal.none = PyVal.str "text"
    · simp only [List.foldl_cons, if_pos h, List.filter_cons, h, decide_True, ite_true,
        List.map_cons, join_cons]
      rw [ih (acc ++ q.text.getD ""), String.append_assoc]
    · simp only [List.foldl_cons, if_neg h, List.filter_cons, h, decide_False, ite_false]
      exact ih acc

-- The extraction fold is the identity when no part is text-typed.
theorem foldl_no_text (parts : List ContentPart)
    (h : ∀ q ∈ parts, ¬ q.type.getD PyVal.none = PyVal.str "text") :
    ∀ acc : String,
      parts.foldl
        (fun acc part =>
          if part.type.getD PyVal.none = PyVal.str "text" then acc ++ part.text.getD "" else acc) acc
      = acc := by
  induction parts with
  | nil => intro acc; rfl
  | cons q parts ih =>
    intro acc
    simp only [List.foldl_cons, if_neg (h q (by simp))]
    exact ih (fun r hr => h r (by simp [hr])) acc

-- Counting a recognized finding increments the total by one.
theorem total_countSeverity_pos (c : SeverityCounts) (f : Finding)
    (h : recognizedSeverity f = true) : (countSeverity c f).total = c.total + 1 := by
  unfold recognizedSeverity at h
  unfold countSeverity SeverityCounts.total
  split_ifs at h ⊢ <;> simp_all
  all_goals omega

-- Counting an unrecognized finding leaves the total unchanged.
theorem total_countSeverity_neg (c : SeverityCounts) (f : Finding)
    (h : recognizedSeverity f = false) : (countSeverity c f).total = c.total := by
  unfold recognizedSeverity at h
  unfold countSeverity SeverityCounts.total
  split_ifs at h ⊢
  simp_all

theorem total_foldl (l : List Finding) :
    ∀ c : SeverityCounts,
      (l.foldl countSeverity c).total = c.total + (l.filter recognizedSeverity).length := by
  induction l with
  | nil => intro c; simp
  | cons f l ih =>
    intro c
    simp only [List.foldl_cons, List.filter_cons]
    cases hf : recognizedSeverity f
    · rw [ih, total_countSeverity_neg c f hf]
      simp [hf]
    · rw [ih, total_countSeverity_pos c f hf]
      simp [hf]
      omega

theorem any_map_comp {α β : Type} (f : α → β) (l : List α) (p : β → Bool) :
    (l.map f).any p = l.any (p ∘ f) := by
  induction l with
  | nil => rfl
  | cons a l ih => simp [ih]

theorem mem_firstOccurrences_foldl (l : List PyVal) :
    ∀ (acc : List PyVal) (x : PyVal),
      (x ∈ l.foldl (fun ks c => if ks.any (fun k => k = c) then ks else ks ++ [c]) acc) ↔
        x ∈ acc ∨ x ∈ l := by
  induction l with
  | nil => intro acc x; simp
  | cons c l ih =>
    intro acc x
    simp only [List.foldl_cons]
    rw [ih]
    by_cases h : acc.any (fun k => k = c)
    · rw [if_pos h]
      have hc : c ∈ acc := by
        rcases List.any_eq_true.mp h with ⟨k, hk, he⟩
        have : k = c := by simpa using he
        subst this; exact hk
      constructor
      · rintro (hx | hx)
        · exact Or.inl hx
        · exact Or.inr (List.mem_cons_of_mem _ hx)
      · rintro (hx | hx)
        · exact Or.inl hx
        · rcases List.mem_cons.mp hx with rfl | hx
          · exact Or.inl hc
          · exact Or.inr hx
    · rw [if_neg h]
      simp only [List.mem_append, List.mem_singleton, List.mem_cons]
      tauto

theorem mem_firstOccurrences (l : List PyVal) (x : PyVal) :
    x ∈ firstOccurrences l ↔ x ∈ l := by
  rw [firstOccurrences, mem_firstOccurrences_foldl]
  simp

theorem nodup_firstOccurrences_foldl (l : List PyVal) :
    ∀ acc : List PyVal, acc.Nodup →
      (l.foldl (fun ks c => if ks.any (fun k => k = c) then ks else ks ++ [c]) acc).Nodup := by
  induction l with
  | nil => intro acc h; simpa using h
  | cons c l ih =>
    intro acc h
    simp only [List.foldl_cons]
    by_cases hc : acc.any (fun k => k = c)
    · rw [if_pos hc]; exact ih acc h
    · rw [if_neg hc]
      apply ih
      rw [List.nodup_append]
      refine ⟨h, List.nodup_singleton c, ?_⟩
      intro a ha hb
      have : a = c := by simpa using hb
      subst this
      exact hc (List.any_eq_true.mpr ⟨a, ha, by simp⟩)

theorem nodup_firstOccurrences (l : List PyVal) : (firstOccurrences l).Nodup :=
  nodup_firstOccurrences_foldl l [] List.nodup_nil

theorem firstOccurrences_append (l : List PyVal) (c : PyVal) :
    firstOccurrences (l ++ [c]) =
      if (firstOccurrences l).any (fun k => k = c) then firstOccurrences l
      else firstOccurrences l ++ [c] := by
  simp [firstOccurrences, List.foldl_append]

-- The category dictionary lists the categories in first-occurrence order, and
-- each category's group is the sublist of findings with that category.
theorem findings_by_category_eq (l : List Finding) :
    findings_by_category l =
      (firstOccurrences (l.map Finding.getCategory)).map
        (fun c => (c, l.filter (fun f => f.getCategory = c))) := by
  induction l using List.reverseRecOn with
  | nil => rfl
  | append_singleton l f ih =>
    have hstep : findings_by_category (l ++ [f]) = addToCategory (findings_by_category l) f := by
      simp [findings_by_category, List.foldl_append]
    rw [hstep, ih]
    rw [List.map_append, List.map_singleton, firstOccurrences_append]
    unfold addToCategory
    rw [any_map_comp]
    have hcomp :
        ((fun p : PyVal × List Finding => (p.1 = f.getCategory : Bool)) ∘
          (fun c => (c, l.filter (fun x => x.getCategory = c)))) =
        (fun k => (k = f.getCategory : Bool)) := by
      funext c; rfl
    rw [hcomp]
    by_cases hc :
        (firstOccurrences (l.map Finding.getCategory)).any (fun k => k = f.getCategory)
    · rw [if_pos hc, if_pos hc, List.map_map]
      apply List.map_congr_left
      intro c hcK
      by_cases hcc : c = f.getCategory
      · subst hcc
        simp only [Function.comp_apply, if_pos rfl, List.filter_append, List.filter_cons,
          List.filter_nil]
        simp
      · have hne : ¬ (f.getCategory = c) := fun h => hcc h.symm
        simp only [Function.comp_apply, if_neg (by simpa using hcc), List.filter_append,
          List.filter_cons, List.filter_nil]
        simp [Finding.getCategory] at hne ⊢
        simp [hne]
    · rw [if_neg hc, if_neg hc, List.map_append, List.map_singleton]
      have hnotmem : f.getCategory ∉ l.map Finding.getCategory := by
        intro hmem
        exact hc (List.any_eq_true.mpr
          ⟨f.getCategory, (mem_firstOccurrences _ _).mpr hmem, by simp⟩)
      congr 1
      · apply List.map_congr_left
        intro c hcK
        have hne : f.getCategory ≠ c := by
          intro h
          rw [h] at hc
          exact hc (List.any_eq_true.mpr ⟨c, hcK, by simp⟩)
        simp only [List.filter_append, List.filter_cons, List.filter_nil]
        simp [hne]
      · have hfilt : l.filter (fun x => x.getCategory = f.getCategory) = [] := by
          rw [List.filter_eq_nil_iff]
          intro a ha hpa
          apply hnotmem
          have : a.getCategory = f.getCategory := by simpa using hpa
          exact this ▸ List.mem_map_of_mem Finding.getCategory ha
        simp [List.filter_append, hfilt]

-- Every finding is a member of the group keyed by its own category.
theorem mem_group_self (l : List Finding) (f : Finding) (hf : f ∈ l) :
    (f.getCategory, l.filter (fun x => x.getCategory = f.getCategory)) ∈
      findings_by_category l ∧
    f ∈ l.filter (fun x => x.getCategory = f.getCategory) := by
  constructor
  · rw [findings_by_category_eq]
    exact List.mem_map_of_mem _
      ((mem_firstOccurrences _ _).mpr (List.mem_map_of_mem _ hf))
  · exact List.mem_filter.mpr ⟨hf, by simp⟩

-- The severity comparison used by the per-category sort is transitive.
theorem sortKey_trans : ∀ a b c : Finding,
    (fun a b => (sortKey a ≤ sortKey b : Bool)) a b →
    (fun a b => (sortKey a ≤ sortKey b : Bool)) b c →
    (fun a b => (sortKey a ≤ sortKey b : Bool)) a c := by
  intro a b c h1 h2
  simp only [decide_eq_true_eq] at *
  omega

-- The severity comparison used by the per-category sort is total.
theorem sortKey_total : ∀ a b : Finding,
    ((fun a b => (sortKey a ≤ sortKey b : Bool)) a b ||
     (fun a b => (sortKey a ≤ sortKey b : Bool)) b a) := by
  intro a b
  simp only [Bool.or_eq_true, decide_eq_true_eq]
  omega

/-! ## Claims -/

/-- Claim C1: for every findings list and every client handle, `get_ai_analysis`
never raises (it is a total function into `String`); if the Model Invoker fails
— the only failing step of the embedded pipeline — the entry point returns
exactly the fallback narrative, and otherwise it returns the extracted
narrative. -/
theorem claim_C1 (bedrock : BedrockClient) (findings : List Finding) :
    (∀ e, invoke_claude_model bedrock (prepare_prompt findings) = Except.error e →
      get_ai_analysis bedrock findings = generate_fallback_narrative) ∧
    (∀ r, invoke_claude_model bedrock (prepare_prompt findings) = Except.ok r →
      get_ai_analysis bedrock findings = extract_narrative_claude r) := by
  constructor
  · intro e he
    simp [get_ai_analysis, he]
  · intro r hr
    simp [get_ai_analysis, hr]

/-- Witness for C1: a failing client yields exactly the fallback narrative, a
succeeding client yields the extracted narrative. -/
theorem witness_C1 :
    get_ai_analysis errClient [] = generate_fallback_narrative ∧
    get_ai_analysis okClient [] = extract_narrative_claude okResp :=
  ⟨(claim_C1 errClient []).1 "network timeout" rfl,
   (claim_C1 okClient []).2 okResp rfl⟩

/-- Counterexample to C2: on a response missing the `content` field,
`extract_narrative_claude` returns the empty string, not the fallback
narrative (the code does `response.get("content", [])`, so a missing field
silently becomes the empty part list). -/
theorem counterexample_C2 :
    extract_narrative_claude { content := Option.none } = "" ∧
    generate_fallback_narrative ≠ "" := by
  constructor
  · rfl
  · decide

/-- Claim C2 (amended): if the response is missing the `content` field the
Response Extractor returns the empty trimmed string — the same result as when
`content` is present but has no text-typed parts; the fallback narrative is
not produced in either case. -/
theorem claim_C2 (response : ModelResponse) :
    (response.content = Option.none → extract_narrative_claude response = "") ∧
    (∀ parts, response.content = some parts →
      (∀ q ∈ parts, ¬ q.type.getD PyVal.none = PyVal.str "text") →
      extract_narrative_claude response = "") := by
  constructor
  · intro h
    simp only [extract_narrative_claude, h, Option.getD_none, List.foldl_nil]
    rfl
  · intro parts h hnone
    simp only [extract_narrative_claude, h, Option.getD_some]
    rw [foldl_no_text parts hnone ""]
    rfl

/-- Witness for C2: both the missing-`content` response and a response with
only a non-text part extract to the empty string. -/
theorem witness_C2 :
    extract_narrative_claude { content := Option.none } = "" ∧
    extract_narrative_claude { content := some [{ type := some (PyVal.str "other") }] } = "" := by
  refine ⟨(claim_C2 { content := Option.none }).1 rfl,
    (claim_C2 _).2 [{ type := some (PyVal.str "other") }] rfl ?_⟩
  intro q hq
  simp at hq
  subst hq
  decide

/-- Claim C3: the five severity counters of the summarizer sum to the number
of findings whose severity is one of the five recognized labels, and every
finding with an unrecognized or absent severity still appears in its category
group. -/
theorem claim_C3 (findings : List Finding) :
    (severity_counts findings).total = (findings.filter recognizedSeverity).length ∧
    ∀ f ∈ findings, recognizedSeverity f = false →
      (f.getCategory, findings.filter (fun x => x.getCategory = f.getCategory)) ∈
        findings_by_category findings ∧
      f ∈ findings.filter (fun x => x.getCategory = f.getCategory) := by
  constructor
  · have h := total_foldl findings initialCounts
    simpa [severity_counts, initialCounts, SeverityCounts.total] using h
  · intro f hf _
    exact mem_group_self findings f hf

/-- Witness for C3: a finding with the unrecognized severity `"Severe"` is
excluded from the counters yet still sits in its category group. -/
theorem witness_C3 :
    recognizedSeverity sampleWeird = false ∧
    (sampleWeird.getCategory,
        [sampleCritical, sampleWeird].filter
          (fun x => x.getCategory = sampleWeird.getCategory)) ∈
      findings_by_category [sampleCritical, sampleWeird] ∧
    sampleWeird ∈
      [sampleCritical, sampleWeird].filter
        (fun x => x.getCategory = sampleWeird.getCategory) :=
  ⟨by decide, (claim_C3 [sampleCritical, sampleWeird]).2 sampleWeird (by simp) (by decide)⟩

/-- Claim C4: every finding appears in exactly one category group (the group
keyed by its own category; the keys are distinct, and any group containing the
finding has that key), and a finding whose category key is absent is grouped
under `"Other"`. -/
theorem claim_C4 (findings : List Finding) :
    ((findings_by_category findings).map Prod.fst).Nodup ∧
    ∀ f ∈ findings,
      (f.getCategory, findings.filter (fun x => x.getCategory = f.getCategory)) ∈
        findings_by_category findings ∧
      f ∈ findings.filter (fun x => x.getCategory = f.getCategory) ∧
      (∀ c g, (c, g) ∈ findings_by_category findings → f ∈ g → c = f.getCategory) ∧
      (f.category = Option.none → f.getCategory = PyVal.str "Other") := by
  constructor
  · rw [findings_by_category_eq, List.map_map]
    have hid : (Prod.fst ∘ fun c => (c, findings.filter (fun x => x.getCategory = c))) = id := by
      funext c; rfl
    rw [hid, List.map_id]
    exact nodup_firstOccurrences _
  · intro f hf
    refine ⟨(mem_group_self findings f hf).1, (mem_group_self findings f hf).2, ?_, ?_⟩
    · intro c g hmem hfg
      rw [findings_by_category_eq] at hmem
      rcases List.mem_map.mp hmem with ⟨c0, _, heq⟩
      have h1 := congrArg Prod.fst heq
      have h2 := congrArg Prod.snd heq
      simp only at h1 h2
      subst h1
      rw [← h2] at hfg
      have hp := (List.mem_filter.mp hfg).2
      have : f.getCategory = c0 := by simpa using hp
      exact this.symm
    · intro h
      simp [Finding.getCategory, h]

/-- Witness for C4: the category-key list of a concrete grouping is
duplicate-free, and a finding with no category key lands in the `"Other"`
group. -/
theorem witness_C4 :
    ((findings_by_category [sampleNoSeverity]).map Prod.fst).Nodup ∧
    (sampleNoSeverity.getCategory,
        [sampleNoSeverity].filter
          (fun x => x.getCategory = sampleNoSeverity.getCategory)) ∈
      findings_by_category [sampleNoSeverity] :=
  ⟨(claim_C4 [sampleNoSeverity]).1,
   (((claim_C4 [sampleNoSeverity]).2 sampleNoSeverity (by simp)).1)⟩

/-- Claim C5: the rendered categories appear in first-occurrence order of the
input, and within each category group the sort is by non-decreasing severity
rank and stable (a tie-chain that is a sublist of the group stays a sublist of
the sorted group). -/
theorem claim_C5 (findings : List Finding) :
    (findings_by_category findings).map Prod.fst =
      firstOccurrences (findings.map Finding.getCategory) ∧
    ∀ c g, (c, g) ∈ findings_by_category findings →
      (sortBySeverity g).Pairwise (fun a b => sortKey a ≤ sortKey b) ∧
      (sortBySeverity g).Perm g ∧
      ∀ ties : List Finding, ties.Pairwise (fun a b => sortKey a = sortKey b) →
        ties.Sublist g → ties.Sublist (sortBySeverity g) := by
  constructor
  · rw [findings_by_category_eq, List.map_map]
    have hid : (Prod.fst ∘ fun c => (c, findings.filter (fun x => x.getCategory = c))) = id := by
      funext c; rfl
    rw [hid, List.map_id]
  · intro c g _
    refine ⟨?_, ?_, ?_⟩
    · have hs := List.sorted_mergeSort sortKey_trans sortKey_total g
      exact hs.imp (fun h => of_decide_eq_true h)
    · exact List.mergeSort_perm g _
    · intro ties hties hsub
      apply List.sublist_mergeSort sortKey_trans sortKey_total ?_ hsub
      exact hties.imp (fun h => by simp [h])

/-- Witness for C5: a concrete category group is sorted with non-decreasing
severity rank and the sorted group is a permutation of the group. -/
theorem witness_C5 :
    (sortBySeverity [sampleCritical, sampleWeird]).Pairwise
      (fun a b => sortKey a ≤ sortKey b) ∧
    (sortBySeverity [sampleCritical, sampleWeird]).Perm [sampleCritical, sampleWeird] :=
  ⟨((claim_C5 [sampleCritical, sampleWeird]).2 (PyVal.str "IAM")
      [sampleCritical, sampleWeird] (by decide)).1,
   ((claim_C5 [sampleCritical, sampleWeird]).2 (PyVal.str "IAM")
      [sampleCritical, sampleWeird] (by decide)).2.1⟩

/-- Claim C6: a category renders at most 5 explicit finding lines; with more
than 5 findings exactly one remainder line is appended whose count is the
category size minus 5, and with 5 or fewer findings no remainder line is
emitted. -/
theorem claim_C6 (c : PyVal) (g : List Finding) :
    ((sortBySeverity g).take 5).length ≤ 5 ∧
    (g.length ≤ 5 →
      categoryLines c g =
        ("\nCategory: " ++ pyStr c) :: (sortBySeverity g).map findingLine ∧
      (sortBySeverity g).length = g.length) ∧
    (5 < g.length →
      categoryLines c g =
        ("\nCategory: " ++ pyStr c) ::
          (((sortBySeverity g).take 5).map findingLine ++
            ["  - ... and " ++ toString (g.length - 5) ++ " more " ++ pyStr c ++ " findings"]) ∧
      ((sortBySeverity g).take 5).length = 5) := by
  have hlen : (sortBySeverity g).length = g.length := by
    simp [sortBySeverity]
  refine ⟨?_, ?_, ?_⟩
  · rw [List.length_take]
    omega
  · intro h5
    refine ⟨?_, hlen⟩
    unfold categoryLines
    rw [List.take_of_length_le (by omega), if_neg (by omega)]
    simp
  · intro h5
    refine ⟨?_, ?_⟩
    · unfold categoryLines
      rw [if_pos h5]
    · rw [List.length_take]
      omega

/-- Witness for C6: a one-finding category renders its single line and no
remainder line. -/
theorem witness_C6 :
    (((sortBySeverity [sampleCritical]).take 5).length ≤ 5) ∧
    categoryLines (PyVal.str "IAM") [sampleCritical] =
      ("\nCategory: " ++ pyStr (PyVal.str "IAM")) ::
        (sortBySeverity [sampleCritical]).map findingLine :=
  ⟨(claim_C6 (PyVal.str "IAM") [sampleCritical]).1,
   (((claim_C6 (PyVal.str "IAM") [sampleCritical]).2.1 (by decide)).1)⟩

/-- Claim C7: on a well-formed response the extracted narrative is the
concatenation, in list order, of the `text` of every part whose `type` is
`"text"`, trimmed; the two spec examples evaluate as stated. -/
theorem claim_C7 :
    (∀ parts : List ContentPart,
      extract_narrative_claude { content := some parts } =
        pyStrip (String.join
          ((parts.filter (fun p => p.type.getD PyVal.none = PyVal.str "text")).map
            (fun p => p.text.getD "")))) ∧
    extract_narrative_claude { content := some (
      [ { type := some (PyVal.str "text"), text := some "Hello " },
        { type := some (PyVal.str "other") },
        { type := some (PyVal.str "text"), text := some "world" } ]) } = "Hello world" ∧
    extract_narrative_claude { content := some [] } = "" := by
  refine ⟨?_, by decide, by rfl⟩
  intro parts
  simp only [extract_narrative_claude, Option.getD_some]
  rw [extract_foldl parts "", String.empty_append]

/-- Claim C8: extraction is idempotent — trimming the already-extracted
narrative leaves it unchanged, so running the pipeline twice is
byte-identical. -/
theorem claim_C8 (response : ModelResponse) :
    pyStrip (extract_narrative_claude response) = extract_narrative_claude response := by
  simp only [extract_narrative_claude]
  exact pyStrip_idem _

/-- Claim C9: a finding whose `category` key is present but bound to `None`
is grouped under the `None` label, not under `"Other"`: the default applies
only to a missing key. -/
theorem claim_C9 (findings : List Finding) (f : Finding) (hf : f ∈ findings)
    (hcat : f.category = some PyVal.none) :
    f.getCategory = PyVal.none ∧
    (PyVal.none, findings.filter (fun x => x.getCategory = PyVal.none)) ∈
      findings_by_category findings ∧
    f ∈ findings.filter (fun x => x.getCategory = PyVal.none) ∧
    (∀ g, (PyVal.str "Other", g) ∈ findings_by_category findings → f ∉ g) := by
  have hget : f.getCategory = PyVal.none := by
    simp [Finding.getCategory, hcat]
  refine ⟨hget, ?_, ?_, ?_⟩
  · have h := (mem_group_self findings f hf).1
    rw [hget] at h
    exact h
  · have h := (mem_group_self findings f hf).2
    rw [hget] at h
    exact h
  · intro g hg hfg
    rw [findings_by_category_eq] at hg
    rcases List.mem_map.mp hg with ⟨c0, _, heq⟩
    have h1 := congrArg Prod.fst heq
    have h2 := congrArg Prod.snd heq
    simp only at h1 h2
    subst h1
    rw [← h2] at hfg
    have hp := (List.mem_filter.mp hfg).2
    rw [hget] at hp
    simp at hp

/-- Witness for C9: a concrete finding with `category` bound to `None` lands
in the `None` group and in no `"Other"` group. -/
theorem witness_C9 :
    sampleNullCategory.getCategory = PyVal.none ∧
    (PyVal.none,
        [sampleNullCategory, sampleCritical].filter
          (fun x => x.getCategory = PyVal.none)) ∈
      findings_by_category [sampleNullCategory, sampleCritical] ∧
    sampleNullCategory ∈
      [sampleNullCategory, sampleCritical].filter (fun x => x.getCategory = PyVal.none) ∧
    (∀ g, (PyVal.str "Other", g) ∈ findings_by_category [sampleNullCategory, sampleCritical] →
      sampleNullCategory ∉ g) :=
  claim_C9 [sampleNullCategory, sampleCritical] sampleNullCategory (by simp) rfl

/-- Claim C10: a finding with no `severity` key gets the rank of `"Low"` (3),
sorting before `Informational` findings, whereas a present-but-unrecognized
severity gets rank 999, sorting after `Informational`. -/
theorem claim_C10 (f g : Finding) :
    (f.severity = Option.none →
      sortKey f = 3 ∧
      sortKey f = sortKey { severity := some (PyVal.str "Low") } ∧
      (g.severity = some (PyVal.str "Informational") → sortKey f < sortKey g)) ∧
    (∀ v, f.severity = some v →
      v ≠ PyVal.str "Critical" → v ≠ PyVal.str "High" → v ≠ PyVal.str "Medium" →
      v ≠ PyVal.str "Low" → v ≠ PyVal.str "Informational" →
      sortKey f = 999 ∧
      (g.severity = some (PyVal.str "Informational") → sortKey g < sortKey f)) := by
  constructor
  · intro h
    have hk : sortKey f = 3 := by
      unfold sortKey
      rw [h]
      decide
    refine ⟨hk, by rw [hk]; decide, ?_⟩
    intro hg
    have hkg : sortKey g = 4 := by
      unfold sortKey
      rw [hg]
      decide
    omega
  · intro v hv h1 h2 h3 h4 h5
    have hk : sortKey f = 999 := by
      unfold sortKey
      rw [hv]
      simp only [Option.getD_some]
      unfold severity_order
      rw [if_neg h1, if_neg h2, if_neg h3, if_neg h4, if_neg h5]
      rfl
    refine ⟨hk, ?_⟩
    intro hg
    have hkg : sortKey g = 4 := by
      unfold sortKey
      rw [hg]
      decide
    omega

/-- Witness for C10: a finding with no severity key has rank 3; a finding
with unrecognized severity `"Severe"` has rank 999. -/
theorem witness_C10 :
    (sampleNoSeverity.severity = Option.none ∧
      sortKey sampleNoSeverity = 3 ∧
      (sampleCritical.severity = some (PyVal.str "Informational") →
        sortKey sampleNoSeverity < sortKey sampleCritical)) ∧
    (sampleWeird.severity = some (PyVal.str "Severe") ∧ sortKey sampleWeird = 999) := by
  refine ⟨⟨rfl, ?_, ?_⟩, rfl, ?_⟩
  · exact ((claim_C10 sampleNoSeverity sampleCritical).1 rfl).1
  · exact ((claim_C10 sampleNoSeverity sampleCritical).1 rfl).2.2
  · exact ((claim_C10 sampleWeird sampleCritical).2 (PyVal.str "Severe") rfl (by decide)
      (by decide) (by decide) (by decide) (by decide)).1
